import Mathlib

/-!
Verification of the treza enclave-proxy agent (src/enclave-proxy).

The development shallowly embeds the Rust sources:
  - `Value` embeds `serde_json::Value` (numbers restricted to integers; the
    float and exponent forms of JSON numbers are beyond this embedding, and
    the agent itself never emits them);
  - `Value.enc` embeds `serde_json::to_vec` (the exact byte format serde
    emits: no whitespace, the serde escape table for strings);
  - `readVal` embeds `serde_json::from_slice` (fuel-based recursive descent);
  - the wire alphabet is `Char`, standing for bytes; every byte the framing
    layer manipulates is below 256 and every claim instance is ASCII, where
    the two coincide;
  - `sendChars` / `recvChars` embed `protocol::send` / `protocol::recv`;
  - the stateful pieces (request counter, pending table, dispatcher loop,
    supervisor env resolution, gateway handlers) are embedded as pure
    functions over explicit state, one per source function.
-/

namespace Treza

/-! ## Data model: serde_json::Value and protocol::Message -/
/-- Embeds `serde_json::Value` (src/enclave-proxy/src/protocol.rs uses it as
the `payload` type). Numbers are modelled as integers; objects as ordered
association lists. -/
inductive Value where
  | null
  | bool (b : Bool)
  | num (n : Int)
  | str (s : String)
  | arr (items : List Value)
  | obj (fields : List (String × Value))

/-- Embeds `protocol::Message` (protocol.rs lines 18-24): the only wire
object, with `msg_type` serialized under the key "type". -/
structure Message where
  msg_type : String
  id : String
  payload : Value

/-- Embeds `serde_json::Value::get` composed with object indexing: the field
of an object under a key (first occurrence), none on non-objects. -/
def Value.get (v : Value) (key : String) : Option Value :=
  match v with
  | .obj fields => fields.lookup key
  | _ => none

/-- Embeds `Value::as_str`. -/
def Value.asStr : Value → Option String
  | .str s => some s
  | _ => none

/-- Embeds `Value::as_u64`: an integer in the u64 range. -/
def Value.asU64 : Value → Option Nat
  | .num n => if 0 ≤ n ∧ n < 18446744073709551616 then some n.toNat else none
  | _ => none

/-- Embeds `Value::as_object`. -/
def Value.asObj : Value → Option (List (String × Value))
  | .obj fields => some fields
  | _ => none

/-- Decimal digit character for a single digit value. -/
def digitChar (d : Nat) : Char := Char.ofNat (48 + d)

/-- Lowercase hex digit character, as serde_json emits in `\u00XX` escapes. -/
def hexChar (d : Nat) : Char :=
  if d < 10 then Char.ofNat (48 + d) else Char.ofNat (87 + d)

/-- Decimal digit test on the code point, as in byte-oriented lexing. -/
def isDigitChar (c : Char) : Bool := 48 ≤ c.toNat && c.toNat ≤ 57

/-- JSON insignificant whitespace (space, tab, line feed, carriage return). -/
def isWsChar (c : Char) : Bool := c == ' ' || c == '\t' || c == '\n' || c == '\r'

/-- ASCII lowercasing of one character, as `to_lowercase` acts on the ASCII
header names HTTP uses. -/
def asciiLower (c : Char) : Char :=
  if 65 ≤ c.toNat ∧ c.toNat ≤ 90 then Char.ofNat (c.toNat + 32) else c

/-- ASCII lowercasing of a string (header names are ASCII). -/
def strLower (s : String) : String := ⟨s.data.map asciiLower⟩

/-! ## Encoder: serde_json::to_vec -/
/-- Fuel-based digit emitter; `natChars` supplies enough fuel. Structural
recursion on the fuel keeps the definition computable by the kernel. -/
def natCharsAux : Nat → Nat → List Char
  | 0, _ => []
  | fuel + 1, n =>
    if n < 10 then [digitChar n]
    else natCharsAux fuel (n / 10) ++ [digitChar (n % 10)]

/-- Decimal digit characters of a natural number, most significant first
(the form `format!` and serde emit). -/
def natChars (n : Nat) : List Char := natCharsAux (n + 1) n

/-- Integer characters: optional minus sign then decimal digits. -/
def intChars (i : Int) : List Char :=
  if i < 0 then '-' :: natChars i.natAbs else natChars i.natAbs

/-- The serde_json escape of one character inside a JSON string: quote and
backslash escaped, the five short control escapes, `\u00XX` for the other
control characters, all else verbatim. -/
def escChar (c : Char) : List Char :=
  if c = '"' then ['\\', '"']
  else if c = '\\' then ['\\', '\\']
  else if c = '\x08' then ['\\', 'b']
  else if c = '\t' then ['\\', 't']
  else if c = '\n' then ['\\', 'n']
  else if c = '\x0c' then ['\\', 'f']
  else if c = '\r' then ['\\', 'r']
  else if c.toNat < 32 then
    ['\\', 'u', '0', '0', hexChar (c.toNat / 16), hexChar (c.toNat % 16)]
  else [c]

/-- The escaped body of a JSON string. -/
def escBody : List Char → List Char
  | [] => []
  | c :: cs => escChar c ++ escBody cs

/-- A complete encoded JSON string, quotes included. -/
def encStr (s : String) : List Char := '"' :: (escBody s.data ++ ['"'])

mutual
/-- Embeds `serde_json::to_vec` on a `Value`: the exact compact form serde
emits (no whitespace, fields in order). -/
def Value.enc : Value → List Char
  | .null => ['n', 'u', 'l', 'l']
  | .bool b => if b then ['t', 'r', 'u', 'e'] else ['f', 'a', 'l', 's', 'e']
  | .num n => intChars n
  | .str s => encStr s
  | .arr [] => ['[', ']']
  | .arr (x :: xs) => '[' :: (Value.enc x ++ encTail xs ++ [']'])
  | .obj [] => ['{', '}']
  | .obj (p :: ps) => '{' :: (encPair p ++ encPairTail ps ++ ['}'])

/-- Comma-prefixed encodings of the remaining array items. -/
def encTail : List Value → List Char
  | [] => []
  | x :: xs => ',' :: (Value.enc x ++ encTail xs)

/-- One encoded object member: key, colon, value. -/
def encPair : String × Value → List Char
  | (k, v) => encStr k ++ ':' :: Value.enc v

/-- Comma-prefixed encodings of the remaining object members. -/
def encPairTail : List (String × Value) → List Char
  | [] => []
  | p :: ps => ',' :: (encPair p ++ encPairTail ps)
end

/-! ## Parser: serde_json::from_slice -/
/-- Drop insignificant whitespace. -/
def wsDrop : List Char → List Char
  | [] => []
  | c :: cs => if isWsChar c then wsDrop cs else c :: cs

/-- Value of a hex digit character (both cases accepted, as in `\u` escapes). -/
def hexNib (c : Char) : Option Nat :=
  if 48 ≤ c.toNat ∧ c.toNat ≤ 57 then some (c.toNat - 48)
  else if 97 ≤ c.toNat ∧ c.toNat ≤ 102 then some (c.toNat - 87)
  else if 65 ≤ c.toNat ∧ c.toNat ≤ 70 then some (c.toNat - 55)
  else none

/-- Parse the body of a JSON string after the opening quote, undoing the
escapes; raw control characters are rejected as serde rejects them. -/
def readStrBody : List Char → Option (List Char × List Char)
  | [] => none
  | '\\' :: r =>
    match r with
    | 'u' :: a :: b :: c :: d :: r1 =>
      match hexNib a, hexNib b, hexNib c, hexNib d with
      | some x, some y, some z, some w =>
        match readStrBody r1 with
        | some (l, r2) => some (Char.ofNat (((x * 16 + y) * 16 + z) * 16 + w) :: l, r2)
        | none => none
      | _, _, _, _ => none
    | e :: r1 =>
      match (if e = '"' then some '"' else if e = '\\' then some '\\'
             else if e = '/' then some '/' else if e = 'b' then some '\x08'
             else if e = 'f' then some '\x0c' else if e = 'n' then some '\n'
             else if e = 'r' then some '\r' else if e = 't' then some '\t'
             else none) with
      | some c =>
        match readStrBody r1 with
        | some (l, r2) => some (c :: l, r2)
        | none => none
      | none => none
    | [] => none
  | c :: r =>
    if c = '"' then some ([], r)
    else if c.toNat < 32 then none
    else
      match readStrBody r with
      | some (l, r2) => some (c :: l, r2)
      | none => none

/-- Take the longest leading run of decimal digit characters. -/
def grabDigits : List Char → List Char × List Char
  | [] => ([], [])
  | c :: cs =>
    if isDigitChar c then
      let (ds, r) := grabDigits cs
      (c :: ds, r)
    else ([], c :: cs)

/-- Numeric value of a digit run. -/
def digitsVal (ds : List Char) : Nat :=
  ds.foldl (fun a c => a * 10 + (c.toNat - 48)) 0

/-- Parse a JSON integer (optional minus sign then digits). Fractional and
exponent forms are outside this embedding. -/
def readNum (cs : List Char) : Option (Value × List Char) :=
  match cs with
  | '-' :: r =>
    match grabDigits r with
    | ([], _) => none
    | (ds, r1) => some (.num (-(digitsVal ds : Int)), r1)
  | _ =>
    match grabDigits cs with
    | ([], _) => none
    | (ds, r1) => some (.num (digitsVal ds), r1)

mutual
/-- Embeds the value grammar of `serde_json::from_slice`: fuel-based
recursive descent over the character list. Beyond this embedding: float
and exponent number forms, the rejection of leading zeros, and the serde
recursion-depth limit (none of which the agent exercises). -/
def readVal : Nat → List Char → Option (Value × List Char)
  | 0, _ => none
  | fuel + 1, cs =>
    match wsDrop cs with
    | 'n' :: 'u' :: 'l' :: 'l' :: r => some (.null, r)
    | 't' :: 'r' :: 'u' :: 'e' :: r => some (.bool true, r)
    | 'f' :: 'a' :: 'l' :: 's' :: 'e' :: r => some (.bool false, r)
    | '"' :: r =>
      match readStrBody r with
      | some (l, r1) => some (.str ⟨l⟩, r1)
      | none => none
    | '[' :: r =>
      (match wsDrop r with
       | ']' :: r1 => some (.arr [], r1)
       | r1 =>
         match readItems fuel r1 with
         | some (vs, r2) => some (.arr vs, r2)
         | none => none)
    | '{' :: r =>
      (match wsDrop r with
       | '}' :: r1 => some (.obj [], r1)
       | r1 =>
         match readPairs fuel r1 with
         | some (ps, r2) => some (.obj ps, r2)
         | none => none)
    | c :: r =>
      if c = '-' || isDigitChar c then readNum (c :: r) else none
    | [] => none

/-- One or more comma-separated array items up to the closing bracket. -/
def readItems : Nat → List Char → Option (List Value × List Char)
  | 0, _ => none
  | fuel + 1, cs =>
    match readVal fuel cs with
    | none => none
    | some (v, r) =>
      match wsDrop r with
      | ',' :: r1 =>
        (match readItems fuel r1 with
         | some (vs, r2) => some (v :: vs, r2)
         | none => none)
      | ']' :: r1 => some ([v], r1)
      | _ => none

/-- One or more comma-separated object members up to the closing brace. -/
def readPairs : Nat → List Char → Option (List (String × Value) × List Char)
  | 0, _ => none
  | fuel + 1, cs =>
    match wsDrop cs with
    | '"' :: r =>
      (match readStrBody r with
       | none => none
       | some (kl, r1) =>
         match wsDrop r1 with
         | ':' :: r2 =>
           (match readVal fuel r2 with
            | none => none
            | some (v, r3) =>
              match wsDrop r3 with
              | ',' :: r4 =>
                (match readPairs fuel r4 with
                 | some (ps, r5) => some ((⟨kl⟩, v) :: ps, r5)
                 | none => none)
              | '}' :: r4 => some ([(⟨kl⟩, v)], r4)
              | _ => none)
         | _ => none)
    | _ => none
end

/-- Embeds `serde_json::from_slice::<Value>` on a whole buffer: one value,
then nothing but whitespace. -/
def valueFromChars (cs : List Char) : Option Value :=
  match readVal (cs.length + 1) cs with
  | some (v, r) => if wsDrop r = [] then some v else none
  | none => none

/-- Embeds the serde-derived `Message` deserializer: a JSON object whose
"type" and "id" fields are strings and whose "payload" field is present. -/
def messageOfValue (v : Value) : Option Message :=
  match (v.get "type").bind Value.asStr, (v.get "id").bind Value.asStr,
        v.get "payload" with
  | some t, some i, some p => some ⟨t, i, p⟩
  | _, _, _ => none

/-- Embeds `serde_json::from_slice::<Message>`. -/
def messageFromChars (cs : List Char) : Option Message :=
  (valueFromChars cs).bind messageOfValue

/-- Embeds `serde_json::to_vec(&msg)`: the derived serializer writes the
three fields in declaration order, `msg_type` under the key "type". -/
def messageToChars (m : Message) : List Char :=
  Value.enc (.obj [("type", .str m.msg_type), ("id", .str m.id),
                   ("payload", m.payload)])

/-! ## Framing codec: protocol::send / protocol::recv -/
/-- The io::ErrorKind values the embedded code distinguishes. -/
inductive IOErrorKind where
  | invalidData
  | unexpectedEof
  | brokenPipe
  | timedOut
deriving DecidableEq, Repr

/-- The frame-size cap from protocol.rs line 62: 10 MiB. -/
def maxMessageSize : Nat := 10 * 1024 * 1024

/-- The 4-byte big-endian length prefix written by `send` (protocol.rs lines
44-45): `payload.len() as u32`, so the length is taken modulo 2^32. -/
def lenPrefix (n : Nat) : List Char :=
  [Char.ofNat (n / 16777216 % 256), Char.ofNat (n / 65536 % 256),
   Char.ofNat (n / 256 % 256), Char.ofNat (n % 256)]

/-- Embeds `protocol::send` (protocol.rs lines 39-48): the byte stream one
call appends to the wire, length prefix then JSON bytes. -/
def sendChars (m : Message) : List Char :=
  lenPrefix (messageToChars m).length ++ messageToChars m

/-- Embeds `protocol::recv` (protocol.rs lines 51-75) on the stream content:
EOF before a full 4-byte prefix is end-of-stream (`none`); a declared length
over 10 MiB is `InvalidData`; a short payload is `UnexpectedEof` (an error,
unlike the prefix case); a payload that does not parse as a `Message` is
`InvalidData`. -/
def recvChars (input : List Char) : Except IOErrorKind (Option Message) :=
  match input with
  | b0 :: b1 :: b2 :: b3 :: rest =>
    let length := ((b0.toNat * 256 + b1.toNat) * 256 + b2.toNat) * 256 + b3.toNat
    if maxMessageSize < length then .error .invalidData
    else if rest.length < length then .error .unexpectedEof
    else
      match messageFromChars (rest.take length) with
      | some m => .ok (some m)
      | none => .error .invalidData
  | _ => .ok none

/-! ## Codec round-trip: the decoder inverts the encoder

The lemmas build up from digits and escapes to the mutual grammar proof.
`numStop rest` says the remainder cannot extend a decimal number, which every
delimiter the encoder places after a number satisfies. -/
/-- A remainder that cannot extend a digit run: empty or not digit-headed. -/
def numStop : List Char → Bool
  | [] => true
  | c :: _ => !(isDigitChar c)

/-! ## Request counter: protocol::next_request_id -/
/-- The formatted correlation id `format!("req-N")`. -/
def reqId (n : Nat) : String := ⟨'r' :: 'e' :: 'q' :: '-' :: natChars n⟩

/-- Embeds `next_request_id` (protocol.rs lines 13-16) over the explicit
counter state. `REQUEST_COUNTER` is an `AtomicU64`: `fetch_add(1)` returns the
previous value and stores it plus one reduced mod 2^64, and the `+ 1` that
forms the id is u64 addition, so the id too wraps at 2^64. The wrapped id and
the new counter are returned. -/
def next_request_id (counter : Nat) : String × Nat :=
  (reqId ((counter + 1) % 18446744073709551616),
   (counter + 1) % 18446744073709551616)

/-- The ids produced by `n` successive calls from a given counter state. -/
def runCounter : Nat → Nat → List String
  | 0, _ => []
  | n + 1, counter =>
    (next_request_id counter).1 :: runCounter n (next_request_id counter).2

/-! ## Multiplexer request: protocol::request -/
/-- An io::Error as the embedded code observes it: kind plus display text. -/
structure IOError where
  kind : IOErrorKind
  text : String
deriving DecidableEq, Repr

/-- The pending-table operations `request` can perform, in program order. -/
inductive TableOp where
  | insert (id : String)
  | sendFrame (m : Message)
  | remove (id : String)

/-- How the wait on the oneshot receiver resolves: a routed response, a
dropped sender (the dispatcher terminated), or the timeout firing first. -/
inductive WaitOutcome where
  | delivered (m : Message)
  | closed
  | elapsed

/-- Embeds `protocol::request` (protocol.rs lines 121-156) as the ordered
pending-table operations it performs together with its result, given the
freshly allocated id, the outcome of `send` (`some e` = the io error it
propagates) and the outcome of the bounded wait. -/
def request (msg_type : String) (payload : Value) (id : String)
    (sendResult : Option IOError) (wait : WaitOutcome) :
    List TableOp × Except IOError Message :=
  let msg : Message := ⟨msg_type, id, payload⟩
  let pre := [TableOp.insert id, TableOp.sendFrame msg]
  match sendResult with
  | some e => (pre, .error e)
  | none =>
    match wait with
    | .delivered m => (pre, .ok m)
    | .closed =>
      (pre ++ [TableOp.remove id], .error ⟨.brokenPipe, "Response channel closed"⟩)
    | .elapsed =>
      (pre ++ [TableOp.remove id],
       .error ⟨.timedOut, "Request " ++ id ++ " timed out"⟩)

/-- Pending table as its set of registered ids (the HashMap keys); insert
replaces any previous binding, remove deletes it. -/
def applyOp (t : List String) : TableOp → List String
  | .insert id => id :: t.filter (fun s => s != id)
  | .sendFrame _ => t
  | .remove id => t.filter (fun s => s != id)

def applyOps (t : List String) (ops : List TableOp) : List String :=
  ops.foldl applyOp t

/-! ## Response dispatcher and health endpoint -/
/-- One loop iteration of the dispatcher: its read outcome, or the
shutdown signal flipping. -/
inductive WireEvent where
  | frame (m : Message)
  | eof
  | readFail
  | shutdownFlip

/-- The state shared between the dispatcher and the health endpoint: the
pending ids and the connection-alive flag `vsock_connected` created in
main.rs line 46. -/
structure ProxyState where
  pending : List String
  vsock_connected : Bool

/-- Embeds `protocol::response_dispatcher` (protocol.rs lines 79-109) run
over a sequence of read outcomes: a decoded frame removes the matching
pending entry (delivering the message to its waiter); clean EOF, read
errors and the shutdown signal break out of the loop. The source loop
mutates only the
pending map — the function it embeds receives no reference to the
connection flag, so the flag rides through unchanged. -/
def response_dispatcher (st : ProxyState) : List WireEvent → ProxyState
  | [] => st
  | e :: es =>
    match e with
    | .frame m =>
      response_dispatcher { st with pending := st.pending.filter (fun s => s != m.id) } es
    | .eof => st
    | .readFail => st
    | .shutdownFlip => st

/-- Embeds the health endpoint body (health.rs lines 62-67): the `vsock`
field reads the connection-alive flag. -/
def healthBody (vsock_connected : Bool) : Value :=
  .obj [("status", .str "healthy"), ("proxy", .str "running"),
        ("vsock", .str (if vsock_connected then "connected" else "disconnected"))]

/-! ## HTTP proxy gateway: http_proxy::handle_request -/
/-- The hop-by-hop request-header filter (http_proxy.rs lines 77-78):
keep a header unless its lowercased name is one of the three dropped. -/
def allowedReqHeader (name : String) : Bool :=
  let n := strLower name
  !(n == "host" || n == "proxy-connection" || n == "proxy-authorization")

/-- serde_json::Map::insert on the association-list model: replace the
binding of an existing key, or add a new one. (The serde map orders keys;
ordering is irrelevant to every property below.) -/
def mapInsert (fields : List (String × Value)) (k : String) (v : Value) :
    List (String × Value) :=
  if fields.any (fun p => p.1 == k) then
    fields.map (fun p => if p.1 == k then (k, v) else p)
  else fields ++ [(k, v)]

/-- One iteration of the request-header collection loop (http_proxy.rs
lines 76-83): a header with an allowed name whose value converts to text is
inserted into the JSON object; the rest are skipped. -/
def collectStep (acc : List (String × Value)) (h : String × Option String) :
    List (String × Value) :=
  if allowedReqHeader h.1 then
    match h.2 with
    | some s => mapInsert acc h.1 (.str s)
    | none => acc
  else acc

/-- Embeds the request-header collection loop (http_proxy.rs lines 75-83).
The input carries each header as hyper iterates it: name and the `to_str`
view of the value (`none` when the bytes are not valid visible text). -/
def collectHeaders (headers : List (String × Option String)) : List (String × Value) :=
  headers.foldl collectStep []

/-- Embeds the `http_request` payload construction (http_proxy.rs
lines 98-103). -/
def httpPayload (method url : String) (headers : List (String × Option String))
    (body : String) : Value :=
  .obj [("method", .str method), ("url", .str url),
        ("headers", .obj (collectHeaders headers)), ("body", .str body)]

/-- The local HTTP response the gateway emits. -/
structure LocalResponse where
  status : Nat
  headers : List (String × String)
  body : String

/-- Embeds the response-header loop (http_proxy.rs lines 113-122): keep a
header when its lowercased name is neither transfer-encoding nor
content-length and its JSON value is a string; the hyper builder appends
the kept headers in order. -/
def respHeaders (fields : List (String × Value)) : List (String × String) :=
  fields.filterMap
    (fun p =>
      if strLower p.1 != "transfer-encoding" && strLower p.1 != "content-length" then
        match p.2 with
        | .str s => some (p.1, s)
        | _ => none
      else none)

/-- Embeds the success branch of `http_proxy::handle_request`
(http_proxy.rs lines 105-127): status is `payload.status` as u64, default
502, cast `as u16`; headers are the filtered response headers with
`content-length` recomputed from the emitted body bytes; the body is
`payload.body` as a string, default empty. -/
def httpLocalResponse (payload : Value) : LocalResponse :=
  let status := (((payload.get "status").bind Value.asU64).getD 502) % 65536
  let hdrs := ((payload.get "headers").bind Value.asObj).getD []
  let body := ((payload.get "body").bind Value.asStr).getD ""
  { status := status
    headers := respHeaders hdrs ++ [("content-length", ⟨natChars body.utf8ByteSize⟩)]
    body := body }

/-- Embeds the failure branch of `http_proxy::handle_request`
(http_proxy.rs lines 128-135): 504 on a timeout, 502 otherwise. -/
def httpFailureResponse (e : IOError) : LocalResponse :=
  let status := if e.kind = .timedOut then 504 else 502
  let msg := if status = 504 then "Gateway Timeout" else "Bad Gateway"
  { status := status, headers := [], body := msg ++ ": " ++ e.text }

/-! ## KMS gateway: kms_proxy::handle_request -/
/-- Embeds `req.uri().path().trim_matches('/')` (kms_proxy.rs line 72):
strip every leading and trailing slash. -/
def trimSlashes (s : String) : String :=
  ⟨((s.data.dropWhile (fun c => c == '/')).reverse.dropWhile (fun c => c == '/')).reverse⟩

/-- Embeds the body parse with empty-object fallback (kms_proxy.rs lines
82-85): a body that fails to parse as JSON becomes the empty object. -/
def kmsData (body : List Char) : Value :=
  (valueFromChars body).getD (.obj [])

/-- Embeds the `kms_request` payload construction (kms_proxy.rs lines
87-90). -/
def kmsPayload (path : String) (body : List Char) : Value :=
  .obj [("operation", .str (trimSlashes path)), ("data", kmsData body)]

/-- Embeds the response mapping of `kms_proxy::handle_request`
(kms_proxy.rs lines 92-105): a string `error` field maps to a local 400, a
success maps to 200 with the `result` subobject (empty object if absent),
and a transport failure maps to 500 with a formatted error body. Returns
the local status and JSON body. -/
def kmsLocalResponse (outcome : Except IOError Message) : Nat × Value :=
  match outcome with
  | .ok resp =>
    (match (resp.payload.get "error").bind Value.asStr with
     | some err => (400, .obj [("error", .str err)])
     | none => (200, ((resp.payload.get "result")).getD (.obj [])))
  | .error e => (500, .obj [("error", .str ("KMS error: " ++ e.text))])

/-! ## Logging channel: logging::fetch_pcrs -/
/-- Embeds `logging::fetch_pcrs` (logging.rs lines 29-40) applied to the
outcome of the `pcr_request` call: on a response, the `pcr_values` field
cloned with `unwrap_or_default()` (the Value default is JSON null); on any
request failure, nothing. -/
def fetch_pcrs (outcome : Except IOError Message) : Option Value :=
  match outcome with
  | .ok resp => some ((resp.payload.get "pcr_values").getD .null)
  | .error _ => none

/-! ## Supervisor: supervisor::resolve_user_command -/
/-- The fallback join of entrypoint and args (supervisor.rs lines 21-29):
both non-empty joins with one space, one non-empty passes through, both
empty yields no command. -/
def joinEntryArgs (e a : String) : Option String :=
  match e.isEmpty, a.isEmpty with
  | false, false => some (e ++ " " ++ a)
  | false, true => some e
  | true, false => some a
  | true, true => none

/-- Embeds `supervisor::resolve_user_command` (supervisor.rs lines 14-30)
over the three environment variables (`none` = unset): a set, non-empty
`TREZA_USER_CMD` wins; otherwise the entrypoint/args join, with unset
variables read as empty strings. -/
def resolve_user_command (cmd ep args : Option String) : Option String :=
  match cmd with
  | some c => if !c.isEmpty then some c else joinEntryArgs (ep.getD "") (args.getD "")
  | none => joinEntryArgs (ep.getD "") (args.getD "")

/-! ## Oversize frame instance

`send` never checks the frame size, but `recv` caps frames at 10 MiB, so a
message whose JSON exceeds the cap encodes but does not decode. -/
/-- A 10 MiB payload string. -/
def bigPayloadString : String := ⟨List.replicate maxMessageSize 'a'⟩

/-- A concrete message whose JSON encoding exceeds the 10 MiB frame cap. -/
def bigMsg : Message := ⟨"log", "req-1", .str bigPayloadString⟩

/-! ## Character helpers -/
/-- toNat of ofNat for byte-sized codes (the framing layer and the escape
tables stay below 256, well inside the valid-scalar range). -/
theorem toNat_ofNat_small (m : Nat) (h : m < 256) : (Char.ofNat m).toNat = m := by
  have hv : m < 55296 ∨ 57343 < m ∧ m < 1114112 := Or.inl (by omega)
  simp only [Char.ofNat, dif_pos hv, Char.ofNatAux, Char.toNat, UInt32.toNat,
    BitVec.toNat_ofNatLt]

/-- The fuel does not matter once it exceeds the value. -/
theorem natCharsAux_fuel : ∀ f₁ f₂ n, n < f₁ → n < f₂ →
    natCharsAux f₁ n = natCharsAux f₂ n := by
  intro f₁
  induction f₁ using Nat.strong_induction_on with
  | _ f₁ ih =>
    intro f₂ n h₁ h₂
    match f₁, f₂ with
    | g₁ + 1, g₂ + 1 =>
      by_cases h : n < 10
      · simp [natCharsAux, h]
      · have hd : n / 10 < n := Nat.div_lt_self (by omega) (by omega)
        simp only [natCharsAux, if_neg h]
        rw [ih g₁ (by omega) g₂ (n / 10) (by omega) (by omega)]

/-- The recurrence `natChars` satisfies, in the shape the proofs unfold. -/
theorem natChars_eq (n : Nat) :
    natChars n = if n < 10 then [digitChar n]
                 else natChars (n / 10) ++ [digitChar (n % 10)] := by
  by_cases h : n < 10
  · simp [natChars, natCharsAux, h]
  · have hd : n / 10 < n := Nat.div_lt_self (by omega) (by omega)
    rw [if_neg h]
    show natCharsAux (n + 1) n = natCharsAux (n / 10 + 1) (n / 10) ++ [digitChar (n % 10)]
    have hstep : natCharsAux (n + 1) n = natCharsAux n (n / 10) ++ [digitChar (n % 10)] := by
      simp [natCharsAux, h]
    rw [hstep, natCharsAux_fuel n (n / 10 + 1) (n / 10) (by omega) (by omega)]

theorem ne_of_toNat_ne {c d : Char} (h : c.toNat ≠ d.toNat) : c ≠ d :=
  fun he => h (congrArg Char.toNat he)

theorem digitChar_toNat {d : Nat} (h : d < 10) : (digitChar d).toNat = 48 + d :=
  toNat_ofNat_small (48 + d) (by omega)

theorem isDigitChar_digitChar {d : Nat} (h : d < 10) :
    isDigitChar (digitChar d) = true := by
  simp [isDigitChar, digitChar_toNat h]
  omega

theorem isDigitChar_toNat {c : Char} (h : isDigitChar c = true) :
    48 ≤ c.toNat ∧ c.toNat ≤ 57 := by
  simpa [isDigitChar] using h

/-- Every character of a printed natural number is a decimal digit. -/
theorem natChars_digits (n : Nat) : ∀ c ∈ natChars n, isDigitChar c = true := by
  induction n using Nat.strong_induction_on with
  | _ n ih =>
    rw [natChars_eq]
    by_cases h : n < 10
    · simp only [if_pos h, List.mem_singleton]
      rintro c rfl
      exact isDigitChar_digitChar h
    · simp only [if_neg h, List.mem_append, List.mem_singleton]
      rintro c (hc | rfl)
      · exact ih (n / 10) (Nat.div_lt_self (by omega) (by omega)) c hc
      · exact isDigitChar_digitChar (Nat.mod_lt _ (by omega))

theorem natChars_ne_nil (n : Nat) : natChars n ≠ [] := by
  rw [natChars_eq]
  by_cases h : n < 10 <;> simp [h]

/-- A printed natural number starts with a digit. -/
theorem natChars_cons (n : Nat) :
    ∃ c t, natChars n = c :: t ∧ isDigitChar c = true := by
  match h : natChars n with
  | [] => exact absurd h (natChars_ne_nil n)
  | c :: t => exact ⟨c, t, rfl, natChars_digits n c (h ▸ List.mem_cons_self ..)⟩

/-- Reading back the digits of a printed natural number recovers it. -/
theorem digitsVal_natChars (n : Nat) : digitsVal (natChars n) = n := by
  induction n using Nat.strong_induction_on with
  | _ n ih =>
    rw [natChars_eq]
    by_cases h : n < 10
    · simp [if_pos h, digitsVal, digitChar_toNat h]
    · simp only [if_neg h, digitsVal, List.foldl_append, List.foldl_cons, List.foldl_nil]
      have hrec := ih (n / 10) (Nat.div_lt_self (by omega) (by omega))
      rw [digitsVal] at hrec
      rw [hrec, digitChar_toNat (Nat.mod_lt _ (by omega))]
      omega

theorem grabDigits_cons_not {c : Char} {t : List Char} (h : isDigitChar c = false) :
    grabDigits (c :: t) = ([], c :: t) := by
  simp [grabDigits, h]

theorem grabDigits_stop {cs : List Char} (h : numStop cs = true) :
    grabDigits cs = ([], cs) := by
  match cs with
  | [] => rfl
  | c :: t =>
    simp only [numStop, Bool.not_eq_true'] at h
    exact grabDigits_cons_not h

/-- A digit run followed by a non-digit remainder is consumed exactly. -/
theorem grabDigits_run (ds : List Char) (hds : ∀ c ∈ ds, isDigitChar c = true)
    (rest : List Char) (hrest : grabDigits rest = ([], rest)) :
    grabDigits (ds ++ rest) = (ds, rest) := by
  induction ds with
  | nil => simpa using hrest
  | cons c t ih =>
    have hc : isDigitChar c = true := hds c (by simp)
    have ht := ih (fun x hx => hds x (by simp [hx]))
    simp [grabDigits, hc, ht]

theorem digit_ne_minus {c : Char} (h : isDigitChar c = true) : c ≠ '-' := by
  obtain ⟨h1, h2⟩ := isDigitChar_toNat h
  have hm : ('-').toNat = 45 := rfl
  exact ne_of_toNat_ne (by omega)

/-- The number decoder inverts the integer printer when the remainder cannot
extend the digit run. -/
theorem readNum_intChars (i : Int) (rest : List Char) (hr : numStop rest = true) :
    readNum (intChars i ++ rest) = some (.num i, rest) := by
  by_cases hneg : i < 0
  · have harg : intChars i ++ rest = '-' :: (natChars i.natAbs ++ rest) := by
      simp [intChars, hneg]
    obtain ⟨c, t, hct, _⟩ := natChars_cons i.natAbs
    have hgrab : grabDigits (natChars i.natAbs ++ rest) = (c :: t, rest) := by
      rw [grabDigits_run _ (natChars_digits _) _ (grabDigits_stop hr), hct]
    have hval : digitsVal (c :: t) = i.natAbs := by
      have := digitsVal_natChars i.natAbs
      rwa [hct] at this
    have hni : -((digitsVal (c :: t) : Nat) : Int) = i := by rw [hval]; omega
    rw [harg, readNum.eq_def]
    simp [hgrab, hni]
  · obtain ⟨c, t, hct, hcd⟩ := natChars_cons i.natAbs
    have harg : intChars i ++ rest = c :: (t ++ rest) := by
      simp [intChars, hneg, hct]
    have hgrab : grabDigits (c :: (t ++ rest)) = (c :: t, rest) := by
      have := grabDigits_run _ (natChars_digits i.natAbs) _ (grabDigits_stop hr)
      rwa [hct, List.cons_append] at this
    have hval : digitsVal (c :: t) = i.natAbs := by
      have := digitsVal_natChars i.natAbs
      rwa [hct] at this
    have hni : ((digitsVal (c :: t) : Nat) : Int) = i := by rw [hval]; omega
    have hcm := digit_ne_minus hcd
    rw [harg, readNum.eq_def]
    simp [hcm, hgrab, hni]

theorem hexNib_hexChar {d : Nat} (h : d < 16) : hexNib (hexChar d) = some d := by
  by_cases h10 : d < 10
  · have ht : (hexChar d).toNat = 48 + d := by
      simp only [hexChar, if_pos h10]
      exact toNat_ofNat_small _ (by omega)
    simp only [hexNib, ht]
    rw [if_pos (by omega)]
    congr 1
    omega
  · have ht : (hexChar d).toNat = 87 + d := by
      simp only [hexChar, if_neg h10]
      exact toNat_ofNat_small _ (by omega)
    simp only [hexNib, ht]
    rw [if_neg (by omega), if_pos (by omega)]
    congr 1
    omega

/-- Decoding one escaped character undoes `escChar`. -/
theorem readStrBody_escChar (c : Char) (rest : List Char) :
    readStrBody (escChar c ++ rest)
      = (readStrBody rest).map (fun p => (c :: p.1, p.2)) := by
  by_cases hq : c = '"'
  · subst hq
    cases hres : readStrBody rest with
    | none => simp [escChar, readStrBody, hres]
    | some p => simp [escChar, readStrBody, hres]
  · by_cases hbs : c = '\\'
    · subst hbs
      cases hres : readStrBody rest with
      | none => simp [escChar, readStrBody, hres]
      | some p => simp [escChar, readStrBody, hres]
    · by_cases hb : c = '\x08'
      · subst hb
        cases hres : readStrBody rest with
        | none => simp [escChar, readStrBody, hres]
        | some p => simp [escChar, readStrBody, hres]
      · by_cases hht : c = '\t'
        · subst hht
          cases hres : readStrBody rest with
          | none => simp [escChar, readStrBody, hres]
          | some p => simp [escChar, readStrBody, hres]
        · by_cases hn : c = '\n'
          · subst hn
            cases hres : readStrBody rest with
            | none => simp [escChar, readStrBody, hres]
            | some p => simp [escChar, readStrBody, hres]
          · by_cases hf : c = '\x0c'
            · subst hf
              cases hres : readStrBody rest with
              | none => simp [escChar, readStrBody, hres]
              | some p => simp [escChar, readStrBody, hres]
            · by_cases hr : c = '\r'
              · subst hr
                cases hres : readStrBody rest with
                | none => simp [escChar, readStrBody, hres]
                | some p => simp [escChar, readStrBody, hres]
              · by_cases hctl : c.toNat < 32
                · have henc : escChar c
                      = ['\\', 'u', '0', '0', hexChar (c.toNat / 16), hexChar (c.toNat % 16)] := by
                    simp [escChar, hq, hbs, hb, hht, hn, hf, hr, hctl]
                  have hhi : hexNib (hexChar (c.toNat / 16)) = some (c.toNat / 16) :=
                    hexNib_hexChar (by omega)
                  have hlo : hexNib (hexChar (c.toNat % 16)) = some (c.toNat % 16) :=
                    hexNib_hexChar (Nat.mod_lt _ (by omega))
                  have hz : hexNib '0' = some 0 := by decide
                  have hnil : ([] : List Char).append rest = rest := rfl
                  have hch : Char.ofNat
                        (((0 * 16 + 0) * 16 + c.toNat / 16) * 16 + c.toNat % 16) = c := by
                    have hcode :
                        ((0 * 16 + 0) * 16 + c.toNat / 16) * 16 + c.toNat % 16 = c.toNat := by
                      omega
                    rw [hcode, Char.ofNat_toNat]
                  have hch2 : Char.ofNat (c.toNat / 16 * 16 + c.toNat % 16) = c := by
                    have hcode : c.toNat / 16 * 16 + c.toNat % 16 = c.toNat := by omega
                    rw [hcode, Char.ofNat_toNat]
                  rw [henc]
                  cases hres : readStrBody rest with
                  | none =>
                    simp [readStrBody, hz, hhi, hlo, hres, hnil]
                  | some p =>
                    simp [readStrBody, hz, hhi, hlo, hres, hnil, hch, hch2]
                · have henc : escChar c = [c] := by
                    simp [escChar, hq, hbs, hb, hht, hn, hf, hr, hctl]
                  rw [henc, List.cons_append, List.nil_append, readStrBody.eq_def]
                  cases hres : readStrBody rest with
                  | none => simp [hbs, hq, hctl, hres]
                  | some p => simp [hbs, hq, hctl, hres]

/-- Decoding an escaped body stops exactly at the closing quote. -/
theorem readStrBody_escBody (l : List Char) : ∀ rest : List Char,
    readStrBody (escBody l ++ '"' :: rest) = some (l, rest) := by
  induction l with
  | nil =>
    intro rest
    simp [escBody, readStrBody]
  | cons c t ih =>
    intro rest
    rw [escBody, List.append_assoc, readStrBody_escChar, ih]
    rfl

theorem wsDrop_cons_not {c : Char} {l : List Char} (h : isWsChar c = false) :
    wsDrop (c :: l) = c :: l := by
  simp [wsDrop, h]

theorem digit_ne_lit {c : Char} (h : isDigitChar c = true) (d : Char)
    (hd : d.toNat < 48 ∨ 57 < d.toNat) : c ≠ d := by
  obtain ⟨h1, h2⟩ := isDigitChar_toNat h
  exact ne_of_toNat_ne (by omega)

theorem digit_not_ws {c : Char} (h : isDigitChar c = true) : isWsChar c = false := by
  obtain ⟨h1, h2⟩ := isDigitChar_toNat h
  have hsp : (' ').toNat = 32 := rfl
  have hta : ('\t').toNat = 9 := rfl
  have hnl : ('\n').toNat = 10 := rfl
  have hcr : ('\r').toNat = 13 := rfl
  simp only [isWsChar, Bool.or_eq_false_iff, beq_eq_false_iff_ne]
  refine ⟨⟨⟨?_, ?_⟩, ?_⟩, ?_⟩ <;> exact ne_of_toNat_ne (by omega)

/-- Every encoded value starts with a character that is neither whitespace
nor a closing delimiter. -/
theorem encHead (v : Value) :
    ∃ c t, Value.enc v = c :: t ∧ isWsChar c = false ∧ c ≠ ']' ∧ c ≠ '}' := by
  cases v with
  | null => exact ⟨'n', _, rfl, by decide⟩
  | bool b =>
    cases b with
    | false => exact ⟨'f', _, rfl, by decide⟩
    | true => exact ⟨'t', _, rfl, by decide⟩
  | str s => exact ⟨'"', _, rfl, by decide⟩
  | arr items =>
    cases items with
    | nil => exact ⟨'[', _, rfl, by decide⟩
    | cons x xs => exact ⟨'[', _, rfl, by decide⟩
  | obj fields =>
    cases fields with
    | nil => exact ⟨'{', _, rfl, by decide⟩
    | cons p ps => exact ⟨'{', _, rfl, by decide⟩
  | num n =>
    by_cases hneg : n < 0
    · exact ⟨'-', natChars n.natAbs, by simp [Value.enc, intChars, hneg],
        by decide, by decide, by decide⟩
    · obtain ⟨c, t, hct, hcd⟩ := natChars_cons n.natAbs
      exact ⟨c, t, by simp [Value.enc, intChars, hneg, hct], digit_not_ws hcd,
        digit_ne_lit hcd ']' (by decide), digit_ne_lit hcd '}' (by decide)⟩

theorem wsDrop_enc (v : Value) (x : List Char) :
    wsDrop (Value.enc v ++ x) = Value.enc v ++ x := by
  obtain ⟨c, t, hv, hws, _, _⟩ := encHead v
  rw [hv, List.cons_append, wsDrop_cons_not hws]

theorem encPair_cons (k : String) (v : Value) :
    encPair (k, v) = '"' :: (escBody k.data ++ '"' :: ':' :: Value.enc v) := by
  simp [encPair, encStr]

/-! Definitional one-step unfoldings of the parser at successor fuel. -/
theorem readVal_bracket (f : Nat) (l : List Char) :
    readVal (f + 1) ('[' :: l)
      = (match wsDrop l with
         | ']' :: r1 => some (.arr [], r1)
         | r1 =>
           match readItems f r1 with
           | some (vs, r2) => some (.arr vs, r2)
           | none => none) := rfl

theorem readVal_brace (f : Nat) (l : List Char) :
    readVal (f + 1) ('{' :: l)
      = (match wsDrop l with
         | '}' :: r1 => some (.obj [], r1)
         | r1 =>
           match readPairs f r1 with
           | some (ps, r2) => some (.obj ps, r2)
           | none => none) := rfl

theorem readItems_step (f : Nat) (cs : List Char) :
    readItems (f + 1) cs
      = (match readVal f cs with
         | none => none
         | some (v, r) =>
           match wsDrop r with
           | ',' :: r1 =>
             (match readItems f r1 with
              | some (vs, r2) => some (v :: vs, r2)
              | none => none)
           | ']' :: r1 => some ([v], r1)
           | _ => none) := rfl

theorem readPairs_step (f : Nat) (cs : List Char) :
    readPairs (f + 1) cs
      = (match wsDrop cs with
         | '"' :: r =>
           (match readStrBody r with
            | none => none
            | some (kl, r1) =>
              match wsDrop r1 with
              | ':' :: r2 =>
                (match readVal f r2 with
                 | none => none
                 | some (v, r3) =>
                   match wsDrop r3 with
                   | ',' :: r4 =>
                     (match readPairs f r4 with
                      | some (ps, r5) => some ((⟨kl⟩, v) :: ps, r5)
                      | none => none)
                   | '}' :: r4 => some ([(⟨kl⟩, v)], r4)
                   | _ => none)
              | _ => none)
         | _ => none) := rfl

theorem numStop_cons {c : Char} (h : isDigitChar c = false) (l : List Char) :
    numStop (c :: l) = true := by
  simp [numStop, h]

/-- A bracket followed by a non-bracket head parses through `readItems`. -/
theorem readVal_arrItems (f : Nat) (c : Char) (t : List Char)
    (hws : isWsChar c = false) (hbr : c ≠ ']') :
    readVal (f + 1) ('[' :: (c :: t))
      = (match readItems f (c :: t) with
         | some (vs, r2) => some (.arr vs, r2)
         | none => none) := by
  rw [readVal_bracket, wsDrop_cons_not hws]
  split
  · next r1 heq =>
    injection heq with h1 h2
    exact absurd h1 hbr
  · next => rfl

/-- A brace followed by a key quote parses through `readPairs`. -/
theorem readVal_objPairs (f : Nat) (t : List Char) :
    readVal (f + 1) ('{' :: ('"' :: t))
      = (match readPairs f ('"' :: t) with
         | some (ps, r2) => some (.obj ps, r2)
         | none => none) := rfl

/-- The fall-through of the grammar dispatch: a head that starts no keyword,
string, array or object, and looks numeric, is parsed as a number. -/
theorem readVal_num_dispatch (f : Nat) (c : Char) (t : List Char)
    (hws : isWsChar c = false) (hn : c ≠ 'n') (ht : c ≠ 't') (hf : c ≠ 'f')
    (hq : c ≠ '"') (hlb : c ≠ '[') (hob : c ≠ '{')
    (hnum : (c = '-' || isDigitChar c) = true) :
    readVal (f + 1) (c :: t) = readNum (c :: t) := by
  simp only [readVal, wsDrop_cons_not hws]
  simp [hn, ht, hf, hq, hlb, hob, hnum]

/-! The mutual grammar round-trip. -/
mutual
theorem rt_val : ∀ (v : Value) (fuel : Nat) (rest : List Char),
    (Value.enc v).length < fuel → numStop rest = true →
    readVal fuel (Value.enc v ++ rest) = some (v, rest)
  | .null, fuel, rest, hf, _ => by
    cases fuel with
    | zero => exact absurd hf (by omega)
    | succ f => simp [Value.enc, readVal, wsDrop, isWsChar]
  | .bool b, fuel, rest, hf, _ => by
    cases fuel with
    | zero => exact absurd hf (by omega)
    | succ f => cases b <;> simp [Value.enc, readVal, wsDrop, isWsChar]
  | .str s, fuel, rest, hf, _ => by
    cases fuel with
    | zero => exact absurd hf (by omega)
    | succ f =>
      have harg : Value.enc (.str s) ++ rest
          = '"' :: (escBody s.data ++ '"' :: rest) := by
        simp [Value.enc, encStr]
      rw [harg]
      simp only [readVal, wsDrop_cons_not (by decide : isWsChar '"' = false)]
      simp [readStrBody_escBody]
  | .num n, fuel, rest, hf, hr => by
    cases fuel with
    | zero => exact absurd hf (by omega)
    | succ f =>
      by_cases hneg : n < 0
      · have harg : Value.enc (.num n) ++ rest
            = '-' :: (natChars n.natAbs ++ rest) := by
          simp [Value.enc, intChars, hneg]
        rw [harg, readVal_num_dispatch f '-' _ (by decide) (by decide) (by decide)
          (by decide) (by decide) (by decide) (by decide) (by decide), ← harg]
        have henc : Value.enc (.num n) = intChars n := rfl
        rw [henc, readNum_intChars n rest hr]
      · obtain ⟨c, t, hct, hcd⟩ := natChars_cons n.natAbs
        have harg : Value.enc (.num n) ++ rest = c :: (t ++ rest) := by
          simp [Value.enc, intChars, hneg, hct]
        rw [harg, readVal_num_dispatch f c _ (digit_not_ws hcd)
          (digit_ne_lit hcd 'n' (by decide)) (digit_ne_lit hcd 't' (by decide))
          (digit_ne_lit hcd 'f' (by decide)) (digit_ne_lit hcd '"' (by decide))
          (digit_ne_lit hcd '[' (by decide)) (digit_ne_lit hcd '{' (by decide))
          (by simp [hcd]), ← harg]
        have henc : Value.enc (.num n) = intChars n := rfl
        rw [henc, readNum_intChars n rest hr]
  | .arr [], fuel, rest, hf, _ => by
    cases fuel with
    | zero => exact absurd hf (by omega)
    | succ f =>
      have harg : Value.enc (.arr []) ++ rest = '[' :: ']' :: rest := rfl
      rw [harg, readVal_bracket]
      simp [wsDrop, isWsChar]
  | .arr (x :: xs), fuel, rest, hf, _ => by
    cases fuel with
    | zero => exact absurd hf (by omega)
    | succ f =>
      have hlen : (Value.enc x ++ encTail xs).length + 1 < f := by
        simp only [Value.enc, List.length_cons, List.length_append,
          List.length_singleton] at hf ⊢
        omega
      have key := rt_items x xs f rest hlen
      obtain ⟨c, t, hx, hws, hbr, _⟩ := encHead x
      have harg : Value.enc (.arr (x :: xs)) ++ rest
          = '[' :: (c :: (t ++ (encTail xs ++ ']' :: rest))) := by
        simp [Value.enc, hx]
      have hcons : c :: (t ++ (encTail xs ++ ']' :: rest))
          = Value.enc x ++ encTail xs ++ ']' :: rest := by
        rw [hx]
        simp
      rw [harg, readVal_arrItems f c _ hws hbr, hcons, key]
  | .obj [], fuel, rest, hf, _ => by
    cases fuel with
    | zero => exact absurd hf (by omega)
    | succ f =>
      have harg : Value.enc (.obj []) ++ rest = '{' :: '}' :: rest := rfl
      rw [harg, readVal_brace]
      simp [wsDrop, isWsChar]
  | .obj (p :: ps), fuel, rest, hf, _ => by
    cases fuel with
    | zero => exact absurd hf (by omega)
    | succ f =>
      have hlen : (encPair p ++ encPairTail ps).length + 1 < f := by
        simp only [Value.enc, List.length_cons, List.length_append,
          List.length_singleton] at hf ⊢
        omega
      have key := rt_pairs p ps f rest hlen
      obtain ⟨k, v⟩ := p
      have harg : Value.enc (.obj ((k, v) :: ps)) ++ rest
          = '{' :: ('"' :: ((escBody k.data ++ '"' :: ':' :: Value.enc v)
              ++ (encPairTail ps ++ '}' :: rest))) := by
        rw [Value.enc, encPair_cons]
        simp
      have hcons : '"' :: ((escBody k.data ++ '"' :: ':' :: Value.enc v)
              ++ (encPairTail ps ++ '}' :: rest))
          = encPair (k, v) ++ encPairTail ps ++ '}' :: rest := by
        rw [encPair_cons]
        simp
      rw [harg, readVal_objPairs, hcons, key]
  termination_by v _ _ _ _ => sizeOf v

theorem rt_items : ∀ (x : Value) (xs : List Value) (fuel : Nat) (rest : List Char),
    (Value.enc x ++ encTail xs).length + 1 < fuel →
    readItems fuel (Value.enc x ++ encTail xs ++ ']' :: rest) = some (x :: xs, rest)
  | x, [], fuel, rest, hf => by
    cases fuel with
    | zero => exact absurd hf (by omega)
    | succ f =>
      have hlx : (Value.enc x).length < f := by
        simp only [encTail, List.append_nil, List.length_append] at hf
        omega
      have hv := rt_val x f (']' :: rest) hlx (numStop_cons (by decide) _)
      have harg : Value.enc x ++ encTail [] ++ ']' :: rest
          = Value.enc x ++ ']' :: rest := by
        simp [encTail]
      rw [harg, readItems_step, hv]
      simp [wsDrop, isWsChar]
  | x, y :: ys, fuel, rest, hf => by
    cases fuel with
    | zero => exact absurd hf (by omega)
    | succ f =>
      simp only [encTail, List.length_append, List.length_cons] at hf
      have hlx : (Value.enc x).length < f := by omega
      have hly : (Value.enc y ++ encTail ys).length + 1 < f := by
        simp only [List.length_append]
        omega
      have hv := rt_val x f (',' :: (Value.enc y ++ encTail ys ++ ']' :: rest)) hlx
        (numStop_cons (by decide) _)
      have key := rt_items y ys f rest hly
      have harg : Value.enc x ++ encTail (y :: ys) ++ ']' :: rest
          = Value.enc x ++ ',' :: (Value.enc y ++ encTail ys ++ ']' :: rest) := by
        simp [encTail]
      rw [harg, readItems_step, hv]
      have hcomma : wsDrop (',' :: (Value.enc y ++ encTail ys ++ ']' :: rest))
          = ',' :: (Value.enc y ++ encTail ys ++ ']' :: rest) :=
        wsDrop_cons_not (by decide)
      simp only [hcomma, key]
  termination_by x xs _ _ _ => sizeOf x + sizeOf xs

theorem rt_pairs : ∀ (p : String × Value) (ps : List (String × Value))
    (fuel : Nat) (rest : List Char),
    (encPair p ++ encPairTail ps).length + 1 < fuel →
    readPairs fuel (encPair p ++ encPairTail ps ++ '}' :: rest) = some (p :: ps, rest)
  | (k, v), [], fuel, rest, hf => by
    cases fuel with
    | zero => exact absurd hf (by omega)
    | succ f =>
      have hlv : (Value.enc v).length < f := by
        simp only [encPair_cons, encPairTail, List.append_nil, List.length_cons,
          List.length_append] at hf
        omega
      have hv := rt_val v f ('}' :: rest) hlv (numStop_cons (by decide) _)
      have harg : encPair (k, v) ++ encPairTail [] ++ '}' :: rest
          = '"' :: (escBody k.data ++ '"' :: (':' :: (Value.enc v ++ '}' :: rest))) := by
        rw [encPair_cons]
        simp [encPairTail]
      rw [harg, readPairs_step]
      rw [wsDrop_cons_not (by decide : isWsChar '"' = false)]
      simp only [readStrBody_escBody]
      rw [wsDrop_cons_not (by decide : isWsChar ':' = false)]
      simp only [hv]
      rw [wsDrop_cons_not (by decide : isWsChar '}' = false)]
      rfl
  | (k, v), q :: qs, fuel, rest, hf => by
    cases fuel with
    | zero => exact absurd hf (by omega)
    | succ f =>
      simp only [encPair_cons (k := k) (v := v), encPairTail, List.length_append,
        List.length_cons] at hf
      have hlv : (Value.enc v).length < f := by omega
      have hlq : (encPair q ++ encPairTail qs).length + 1 < f := by
        simp only [List.length_append]
        omega
      have hv := rt_val v f (',' :: (encPair q ++ encPairTail qs ++ '}' :: rest)) hlv
        (numStop_cons (by decide) _)
      have key := rt_pairs q qs f rest hlq
      have harg : encPair (k, v) ++ encPairTail (q :: qs) ++ '}' :: rest
          = '"' :: (escBody k.data ++ '"' :: (':' :: (Value.enc v
              ++ ',' :: (encPair q ++ encPairTail qs ++ '}' :: rest)))) := by
        rw [encPair_cons]
        simp [encPairTail]
      rw [harg, readPairs_step]
      rw [wsDrop_cons_not (by decide : isWsChar '"' = false)]
      simp only [readStrBody_escBody]
      rw [wsDrop_cons_not (by decide : isWsChar ':' = false)]
      simp only [hv]
      rw [wsDrop_cons_not (by decide : isWsChar ',' = false)]
      simp only [key]
  termination_by p ps _ _ _ => sizeOf p + sizeOf ps
end

/-- Whole-buffer decoding inverts the encoder. -/
theorem valueFromChars_enc (v : Value) : valueFromChars (Value.enc v) = some v := by
  have h := rt_val v ((Value.enc v).length + 1) [] (by omega) rfl
  rw [List.append_nil] at h
  rw [valueFromChars, h]
  simp [wsDrop]

/-- Message decoding inverts message encoding (JSON level). -/
theorem messageFromChars_messageToChars (m : Message) :
    messageFromChars (messageToChars m) = some m := by
  obtain ⟨t, i, p⟩ := m
  rw [messageFromChars, messageToChars, valueFromChars_enc]
  simp [messageOfValue, Value.get, List.lookup, Value.asStr]

/-- What `recv` does on a well-formed length prefix followed by the rest of
the stream: the declared length is read back exactly, then the size check,
the payload availability check, and the JSON parse run in order. -/
theorem recvChars_lenPrefix (L : Nat) (hL : L < 4294967296) (payload : List Char) :
    recvChars (lenPrefix L ++ payload)
      = if maxMessageSize < L then .error .invalidData
        else if payload.length < L then .error .unexpectedEof
        else
          match messageFromChars (payload.take L) with
          | some m => .ok (some m)
          | none => .error .invalidData := by
  have h0 : (Char.ofNat (L / 16777216 % 256)).toNat = L / 16777216 % 256 :=
    toNat_ofNat_small _ (Nat.mod_lt _ (by omega))
  have h1 : (Char.ofNat (L / 65536 % 256)).toNat = L / 65536 % 256 :=
    toNat_ofNat_small _ (Nat.mod_lt _ (by omega))
  have h2 : (Char.ofNat (L / 256 % 256)).toNat = L / 256 % 256 :=
    toNat_ofNat_small _ (Nat.mod_lt _ (by omega))
  have h3 : (Char.ofNat (L % 256)).toNat = L % 256 :=
    toNat_ofNat_small _ (Nat.mod_lt _ (by omega))
  have hsplit : lenPrefix L ++ payload
      = Char.ofNat (L / 16777216 % 256) :: Char.ofNat (L / 65536 % 256)
        :: Char.ofNat (L / 256 % 256) :: Char.ofNat (L % 256) :: payload := rfl
  have hval : ((L / 16777216 % 256 * 256 + L / 65536 % 256) * 256
        + L / 256 % 256) * 256 + L % 256 = L := by
    omega
  rw [hsplit]
  simp only [recvChars, h0, h1, h2, h3, hval]

/-- Frame-level round-trip: decoding the stream `send` produces yields the
same message, whenever the JSON stays within the 10 MiB frame cap. -/
theorem recvChars_sendChars (m : Message)
    (h : (messageToChars m).length ≤ maxMessageSize) :
    recvChars (sendChars m) = .ok (some m) := by
  have hmax : maxMessageSize = 10485760 := rfl
  rw [show sendChars m = lenPrefix (messageToChars m).length ++ messageToChars m from rfl,
    recvChars_lenPrefix _ (by omega) _]
  rw [if_neg (by omega), if_neg (by omega), List.take_length,
    messageFromChars_messageToChars]

/-! ## Lemmas about the request counter -/
theorem natChars_inj {a b : Nat} (h : natChars a = natChars b) : a = b := by
  have ha := digitsVal_natChars a
  rw [h, digitsVal_natChars b] at ha
  exact ha.symm

theorem reqId_inj {a b : Nat} (h : reqId a = reqId b) : a = b := by
  have hd : 'r' :: 'e' :: 'q' :: '-' :: natChars a
      = 'r' :: 'e' :: 'q' :: '-' :: natChars b := congrArg String.data h
  have h4 : natChars a = natChars b := by simpa using hd
  exact natChars_inj h4

theorem runCounter_eq (n : Nat) : ∀ c,
    runCounter n c
      = (List.range n).map (fun i => reqId ((c + i + 1) % 18446744073709551616)) := by
  induction n with
  | zero => intro c; simp [runCounter]
  | succ k ih =>
    intro c
    rw [runCounter]
    show reqId ((c + 1) % 18446744073709551616)
        :: runCounter k ((c + 1) % 18446744073709551616) = _
    rw [ih ((c + 1) % 18446744073709551616), List.range_succ_eq_map]
    simp only [List.map_cons, List.map_map, Function.comp]
    have hfun : ∀ i, ((c + 1) % 18446744073709551616 + i + 1) % 18446744073709551616
        = (c + (i + 1) + 1) % 18446744073709551616 := by
      intro i
      omega
    refine List.cons_eq_cons.mpr ⟨rfl, ?_⟩
    refine List.map_congr_left ?_
    intro i _
    congr 1
    exact hfun i

theorem escBody_replicate_a (n : Nat) :
    escBody (List.replicate n 'a') = List.replicate n 'a' := by
  induction n with
  | zero => rfl
  | succ k ih =>
    rw [List.replicate_succ]
    show escChar 'a' ++ escBody (List.replicate k 'a') = _
    rw [ih, show escChar 'a' = ['a'] from rfl]
    rfl

theorem encStr_length (s : String) :
    (encStr s).length = (escBody s.data).length + 2 := by
  simp [encStr]

theorem enc_str_length (s : String) :
    (Value.enc (.str s)).length = (escBody s.data).length + 2 := encStr_length s

theorem encPair_length (k : String) (v : Value) :
    (encPair (k, v)).length = (encStr k).length + 1 + (Value.enc v).length := by
  simp [encPair]
  omega

theorem enc_obj3_length (p1 p2 p3 : String × Value) :
    (Value.enc (.obj [p1, p2, p3])).length
      = (encPair p1).length + (encPair p2).length + (encPair p3).length + 4 := by
  simp [Value.enc, encPairTail]
  omega

theorem bigMsg_length : (messageToChars bigMsg).length = maxMessageSize + 40 := by
  rw [show messageToChars bigMsg
      = Value.enc (.obj [("type", Value.str "log"), ("id", Value.str "req-1"),
          ("payload", Value.str bigPayloadString)]) from rfl,
    enc_obj3_length, encPair_length "payload" (Value.str bigPayloadString),
    enc_str_length,
    show bigPayloadString.data = List.replicate maxMessageSize 'a' from rfl,
    escBody_replicate_a, List.length_replicate]
  rw [show (encPair ("type", Value.str "log")).length = 12 from rfl,
    show (encPair ("id", Value.str "req-1")).length = 12 from rfl,
    show (encStr "payload").length = 9 from rfl]
  omega

/-! ## Claim theorems -/
/-- C1: contrary to the claim, the response dispatcher never writes the
connection-alive flag — the source function receives no reference to it —
so after the dispatcher terminates on clean EOF or a read error the flag
still holds its initial value true (main.rs line 46) and every health
request served afterwards still reports vsock "connected". The
"disconnected" branch of health.rs is unreachable. -/
theorem c1_flag_never_cleared :
    (∀ (st : ProxyState) (evs : List WireEvent),
        (response_dispatcher st evs).vsock_connected = st.vsock_connected)
    ∧ (healthBody (response_dispatcher ⟨[], true⟩ [.eof]).vsock_connected).get "vsock"
        = some (.str "connected")
    ∧ (healthBody (response_dispatcher ⟨[], true⟩ [.readFail]).vsock_connected).get "vsock"
        = some (.str "connected") := by
  refine ⟨?_, rfl, rfl⟩
  intro st evs
  induction evs generalizing st with
  | nil => rfl
  | cons e es ih =>
    cases e with
    | frame m => exact ih _
    | eof => rfl
    | readFail => rfl
    | shutdownFlip => rfl

/-- C2: request registers the fresh id and only then sends the frame (the
insert precedes the send in its operation sequence); when the wait times
out the entry is removed before the TimedOut error is returned; when the
notifier is dropped the entry is removed and BrokenPipe is returned; and a
response delivered in time is returned as the result. -/
theorem c2_request_table_discipline :
    ∀ (ty : String) (pl : Value) (id : String) (sendResult : Option IOError)
      (w : WaitOutcome) (t0 : List String),
      (request ty pl id sendResult w).1.take 2
          = [TableOp.insert id, TableOp.sendFrame ⟨ty, id, pl⟩]
      ∧ (sendResult = none → w = .elapsed →
          (request ty pl id sendResult w).2
              = .error ⟨.timedOut, "Request " ++ id ++ " timed out"⟩
          ∧ (request ty pl id sendResult w).1
              = [TableOp.insert id, TableOp.sendFrame ⟨ty, id, pl⟩, TableOp.remove id]
          ∧ id ∉ applyOps t0 (request ty pl id sendResult w).1)
      ∧ (sendResult = none → w = .closed →
          (request ty pl id sendResult w).2
              = .error ⟨.brokenPipe, "Response channel closed"⟩
          ∧ id ∉ applyOps t0 (request ty pl id sendResult w).1)
      ∧ (∀ m, sendResult = none → w = .delivered m →
          (request ty pl id sendResult w).2 = .ok m) := by
  intro ty pl id sendResult w t0
  refine ⟨?_, ?_, ?_, ?_⟩
  · cases sendResult <;> cases w <;> rfl
  · rintro rfl rfl
    refine ⟨rfl, rfl, ?_⟩
    show id ∉ applyOps t0 [TableOp.insert id, TableOp.sendFrame _, TableOp.remove id]
    simp [applyOps, applyOp, List.mem_filter]
  · rintro rfl rfl
    refine ⟨rfl, ?_⟩
    show id ∉ applyOps t0 [TableOp.insert id, TableOp.sendFrame _, TableOp.remove id]
    simp [applyOps, applyOp, List.mem_filter]
  · rintro m rfl rfl
    rfl

/-- C2 witness: a concrete timed-out request removes its entry and fails
TimedOut. -/
theorem c2_request_table_discipline_witness :
    (request "kms_request" .null "req-7" none .elapsed).2
        = .error ⟨.timedOut, "Request " ++ "req-7" ++ " timed out"⟩
    ∧ "req-7" ∉ applyOps ["req-7", "req-3"]
        (request "kms_request" .null "req-7" none .elapsed).1 :=
  ⟨((c2_request_table_discipline "kms_request" .null "req-7" none .elapsed
      ["req-7", "req-3"]).2.1 rfl rfl).1,
   ((c2_request_table_discipline "kms_request" .null "req-7" none .elapsed
      ["req-7", "req-3"]).2.1 rfl rfl).2.2⟩

/-- C3 amended: the ids issued by N successive calls of next_request_id in
one process run are req-1 through req-N in order — the numeric parts the
strictly increasing integers 1..N — and hence pairwise distinct, provided
N ≤ 2^64 − 1. Past that bound the claim fails: the counter is a u64 and
wraps, see the counterexample. -/
theorem c3_request_ids_increasing_and_distinct (n : Nat)
    (h : n ≤ 18446744073709551615) :
    runCounter n 0 = (List.range n).map (fun i => reqId (i + 1))
    ∧ (runCounter n 0).Nodup := by
  have hr := runCounter_eq n 0
  have hmap : (List.range n).map (fun i => reqId ((0 + i + 1) % 18446744073709551616))
      = (List.range n).map (fun i => reqId (i + 1)) := by
    refine List.map_congr_left ?_
    intro i hi
    have hin : i < n := List.mem_range.mp hi
    congr 1
    omega
  rw [hr, hmap]
  refine ⟨rfl, ?_⟩
  refine List.Nodup.map ?_ (List.nodup_range n)
  intro a b hab
  have := reqId_inj hab
  omega

/-- C3 witness: three calls from process start yield req-1, req-2, req-3,
pairwise distinct. -/
theorem c3_request_ids_increasing_and_distinct_witness :
    3 ≤ 18446744073709551615
    ∧ (runCounter 3 0 = (List.range 3).map (fun i => reqId (i + 1))
       ∧ (runCounter 3 0).Nodup) :=
  ⟨by decide, c3_request_ids_increasing_and_distinct 3 (by decide)⟩

/-- C3 counterexample: the claim is false over all calls of a run. The u64
counter wraps, so among 2^64 + 1 calls from process start the ids are not
pairwise distinct (call 1 and call 2^64 + 1 both yield req-1); and the call
made in counter state 2^64 − 1 yields req-0, which is not of the increasing
req-1, req-2, ... form. -/
theorem c3_wrap_counterexample :
    ¬ (runCounter (18446744073709551616 + 1) 0).Nodup
    ∧ (next_request_id 18446744073709551615).1 = "req-0" := by
  constructor
  · intro hnd
    rw [runCounter_eq] at hnd
    have hlen : ((List.range (18446744073709551616 + 1)).map
        (fun i => reqId ((0 + i + 1) % 18446744073709551616))).length
        = 18446744073709551616 + 1 := by
      simp
    have h0 : ((List.range (18446744073709551616 + 1)).map
        (fun i => reqId ((0 + i + 1) % 18446744073709551616)))[0]?
        = some (reqId 1) := by
      rw [List.getElem?_map, List.getElem?_range (by omega)]
      show some (reqId ((0 + 0 + 1) % 18446744073709551616)) = some (reqId 1)
      have he : (0 + 0 + 1) % 18446744073709551616 = 1 := by omega
      rw [he]
    have hM : ((List.range (18446744073709551616 + 1)).map
        (fun i => reqId ((0 + i + 1) % 18446744073709551616)))[18446744073709551616]?
        = some (reqId 1) := by
      rw [List.getElem?_map, List.getElem?_range (by omega)]
      show some (reqId ((0 + 18446744073709551616 + 1) % 18446744073709551616))
          = some (reqId 1)
      have he : (0 + 18446744073709551616 + 1) % 18446744073709551616 = 1 := by omega
      rw [he]
    have := List.getElem?_inj (by omega) hnd (h0.trans hM.symm)
    omega
  · rfl

/-- C4: recv reports clean EOF before the 4-byte length prefix as
end-of-stream rather than an error; every declared length strictly above
10 MiB is rejected as InvalidData (so 10 MiB + 1 is rejected) while a frame
of exactly 10 MiB is not size-rejected and proceeds to the JSON parse; and
a full-length payload that does not parse as a Message yields InvalidData. -/
theorem c4_recv_eof_size_and_json :
    recvChars [] = .ok none
    ∧ (∀ (L : Nat) (payload : List Char), maxMessageSize < L → L < 4294967296 →
        recvChars (lenPrefix L ++ payload) = .error .invalidData)
    ∧ (∀ payload : List Char, payload.length = maxMessageSize →
        recvChars (lenPrefix maxMessageSize ++ payload)
          = match messageFromChars payload with
            | some m => .ok (some m)
            | none => .error .invalidData)
    ∧ (∀ payload : List Char, payload.length ≤ maxMessageSize →
        messageFromChars payload = none →
        recvChars (lenPrefix payload.length ++ payload) = .error .invalidData) := by
  have hmax : maxMessageSize = 10485760 := rfl
  refine ⟨rfl, ?_, ?_, ?_⟩
  · intro L payload hgt hlt
    rw [recvChars_lenPrefix L hlt payload, if_pos hgt]
  · intro payload hlen
    rw [recvChars_lenPrefix maxMessageSize (by omega) payload,
      if_neg (by omega), if_neg (by omega), ← hlen, List.take_length]
  · intro payload hle hnone
    rw [recvChars_lenPrefix payload.length (by omega) payload,
      if_neg (by omega), if_neg (by omega), List.take_length, hnone]

/-- C4 witness: the boundary instances — an oversized declared length with
no payload, a full 10 MiB frame, and a one-byte non-JSON payload. -/
theorem c4_recv_eof_size_and_json_witness :
    recvChars (lenPrefix (maxMessageSize + 1) ++ []) = .error .invalidData
    ∧ recvChars (lenPrefix maxMessageSize ++ List.replicate maxMessageSize 'x')
        = (match messageFromChars (List.replicate maxMessageSize 'x') with
           | some m => .ok (some m)
           | none => .error .invalidData)
    ∧ recvChars (lenPrefix (['x'] : List Char).length ++ ['x']) = .error .invalidData :=
  ⟨c4_recv_eof_size_and_json.2.1 (maxMessageSize + 1) [] (by omega) (by decide),
   c4_recv_eof_size_and_json.2.2.1 (List.replicate maxMessageSize 'x') (by simp),
   c4_recv_eof_size_and_json.2.2.2 ['x'] (by decide) rfl⟩

/-- C5 (amended): encoding then decoding returns an equal Message for every
message whose JSON encoding fits the 10 MiB frame cap of recv; a frame of
declared length 0 passes the size check but its empty payload is not a
Message, so it yields InvalidData instead of round-tripping — and indeed no
Message encodes to an empty frame. -/
theorem c5_roundtrip_within_cap :
    (∀ m : Message, (messageToChars m).length ≤ maxMessageSize →
        recvChars (sendChars m) = .ok (some m))
    ∧ recvChars [Char.ofNat 0, Char.ofNat 0, Char.ofNat 0, Char.ofNat 0]
        = .error .invalidData
    ∧ (∀ m : Message, (messageToChars m).length ≠ 0) := by
  refine ⟨fun m h => recvChars_sendChars m h, rfl, ?_⟩
  intro m
  obtain ⟨t, i, p⟩ := m
  show (Value.enc (.obj [("type", .str t), ("id", .str i), ("payload", p)])).length ≠ 0
  simp [Value.enc]

/-- C5 counterexample: the claim fails as stated at both boundary points —
the zero-length frame decodes to InvalidData instead of round-tripping, and
a message with a 10 MiB payload string encodes (send never checks the size)
to a frame the decoder rejects as oversized, so decode of its encoding is
an error, not the message. -/
theorem c5_roundtrip_counterexample :
    recvChars [Char.ofNat 0, Char.ofNat 0, Char.ofNat 0, Char.ofNat 0]
        = .error .invalidData
    ∧ recvChars (sendChars bigMsg) = .error .invalidData := by
  refine ⟨rfl, ?_⟩
  have hmax : maxMessageSize = 10485760 := rfl
  rw [show sendChars bigMsg
      = lenPrefix (messageToChars bigMsg).length ++ messageToChars bigMsg from rfl,
    recvChars_lenPrefix _ (by rw [bigMsg_length]; omega) _,
    if_pos (by rw [bigMsg_length]; omega)]

/-- C5 witness: a concrete log message within the cap round-trips. -/
theorem c5_roundtrip_within_cap_witness :
    (messageToChars (⟨"log", "req-1", .obj [("level", .str "info")]⟩ : Message)).length
        ≤ maxMessageSize
    ∧ recvChars (sendChars ⟨"log", "req-1", .obj [("level", .str "info")]⟩)
        = .ok (some ⟨"log", "req-1", .obj [("level", .str "info")]⟩) :=
  ⟨by decide, c5_roundtrip_within_cap.1 _ (by decide)⟩

/-- C7: the kms_request payload carries the slash-trimmed path as the
operation and the parsed body (empty object when the body is not JSON) as
the data; a response with a string error field yields a local 400 carrying
that error; any other response yields 200 with the result subobject (empty
object when absent); and a failed multiplexer request yields a local 500
with an error body. -/
theorem c7_kms_gateway :
    (∀ (path : String) (body : List Char),
        (kmsPayload path body).get "operation" = some (.str (trimSlashes path))
        ∧ (kmsPayload path body).get "data" = some (kmsData body))
    ∧ (∀ body : List Char, valueFromChars body = none → kmsData body = .obj [])
    ∧ (∀ (resp : Message) (err : String),
        (resp.payload.get "error").bind Value.asStr = some err →
        kmsLocalResponse (.ok resp) = (400, .obj [("error", .str err)]))
    ∧ (∀ resp : Message,
        (resp.payload.get "error").bind Value.asStr = none →
        kmsLocalResponse (.ok resp) = (200, (resp.payload.get "result").getD (.obj [])))
    ∧ (∀ e : IOError, kmsLocalResponse (.error e)
        = (500, .obj [("error", .str ("KMS error: " ++ e.text))]))
    ∧ trimSlashes "/decrypt" = "decrypt" := by
  refine ⟨?_, ?_, ?_, ?_, ?_, rfl⟩
  · intro path body
    exact ⟨rfl, rfl⟩
  · intro body h
    simp [kmsData, h]
  · intro resp err h
    simp [kmsLocalResponse, h]
  · intro resp h
    simp [kmsLocalResponse, h]
  · intro e
    rfl

/-- C7 witness: a non-JSON body becomes the empty object; an error reply
maps to 400 with the error; an error-free reply maps to 200 with the
(absent, hence empty) result; a broken-pipe failure maps to 500. -/
theorem c7_kms_gateway_witness :
    kmsData ['@'] = .obj []
    ∧ kmsLocalResponse (.ok ⟨"kms_response", "req-9", .obj [("error", .str "bad key")]⟩)
        = (400, .obj [("error", .str "bad key")])
    ∧ kmsLocalResponse (.ok ⟨"kms_response", "req-9", .obj [("ok", .bool true)]⟩)
        = (200, .obj [])
    ∧ kmsLocalResponse (.error ⟨.brokenPipe, "Response channel closed"⟩)
        = (500, .obj [("error", .str ("KMS error: " ++ "Response channel closed"))]) :=
  ⟨c7_kms_gateway.2.1 ['@'] rfl,
   c7_kms_gateway.2.2.1 ⟨"kms_response", "req-9", .obj [("error", .str "bad key")]⟩
     "bad key" rfl,
   c7_kms_gateway.2.2.2.1 ⟨"kms_response", "req-9", .obj [("ok", .bool true)]⟩ rfl,
   c7_kms_gateway.2.2.2.2.1 ⟨.brokenPipe, "Response channel closed"⟩⟩

theorem isEmpty_eq_true {s : String} (h : s = "") : s.isEmpty = true :=
  (String.isEmpty_iff s).mpr h

theorem isEmpty_eq_false {s : String} (h : s ≠ "") : s.isEmpty = false := by
  rcases hb : s.isEmpty with _ | _
  · rfl
  · exact absurd ((String.isEmpty_iff s).mp hb) h

/-- C8: resolve_user_command returns TREZA_USER_CMD whenever it is set and
non-empty; otherwise it returns the space-join of TREZA_USER_ENTRYPOINT and
TREZA_USER_CMD_ARGS, passing a lone non-empty part through unchanged; and
it returns no command exactly when the fallback parts are both empty. -/
theorem c8_resolve_user_command :
    ∀ (cmd ep args : Option String),
      (∀ c, cmd = some c → c ≠ "" → resolve_user_command cmd ep args = some c)
      ∧ ((cmd = none ∨ cmd = some "") →
          resolve_user_command cmd ep args
            = (if ep.getD "" = "" then
                 (if args.getD "" = "" then none else some (args.getD ""))
               else if args.getD "" = "" then some (ep.getD "")
               else some (ep.getD "" ++ " " ++ args.getD "")))
      ∧ (resolve_user_command cmd ep args = none
          ↔ ((cmd = none ∨ cmd = some "") ∧ ep.getD "" = "" ∧ args.getD "" = "")) := by
  intro cmd ep args
  have hjoin : ∀ e a : String, joinEntryArgs e a
      = (if e = "" then (if a = "" then none else some a)
         else if a = "" then some e else some (e ++ " " ++ a)) := by
    intro e a
    have hemp : ("" : String).isEmpty = true := rfl
    by_cases he : e = ""
    · by_cases ha : a = ""
      · simp [joinEntryArgs, he, ha, hemp]
      · simp [joinEntryArgs, he, ha, hemp, isEmpty_eq_false ha]
    · by_cases ha : a = ""
      · simp [joinEntryArgs, he, ha, hemp, isEmpty_eq_false he]
      · simp [joinEntryArgs, he, ha, isEmpty_eq_false he, isEmpty_eq_false ha]
  refine ⟨?_, ?_, ?_⟩
  · rintro c rfl hc
    simp [resolve_user_command, isEmpty_eq_false hc]
  · intro hcmd
    rcases hcmd with rfl | rfl
    · simp [resolve_user_command, hjoin]
    · simp [resolve_user_command, hjoin, show ("" : String).isEmpty = true from rfl]
  · cases cmd with
    | none =>
      rw [show resolve_user_command none ep args
          = joinEntryArgs (ep.getD "") (args.getD "") from rfl, hjoin]
      by_cases he : ep.getD "" = "" <;> by_cases ha : args.getD "" = "" <;>
        simp [he, ha]
    | some c =>
      by_cases hc : c = ""
      · subst hc
        rw [show resolve_user_command (some "") ep args
            = joinEntryArgs (ep.getD "") (args.getD "") from rfl, hjoin]
        by_cases he : ep.getD "" = "" <;> by_cases ha : args.getD "" = "" <;>
          simp [he, ha]
      · simp [resolve_user_command, isEmpty_eq_false hc, hc]

/-- C8 witness: the concrete cases — a set command wins, an entrypoint with
args joins with a space, a lone entrypoint passes through, and all-empty
yields no command. -/
theorem c8_resolve_user_command_witness :
    resolve_user_command (some "/bin/true") (some "python3") (some "app.py")
        = some "/bin/true"
    ∧ resolve_user_command none (some "python3") (some "app.py")
        = some ("python3" ++ " " ++ "app.py")
    ∧ resolve_user_command (some "") (some "python3") none = some "python3"
    ∧ (resolve_user_command (some "") none (some "") = none
        ↔ (((some "" : Option String) = none ∨ (some "" : Option String) = some "")
            ∧ (none : Option String).getD "" = "" ∧ (some "" : Option String).getD "" = "")) :=
  ⟨(c8_resolve_user_command (some "/bin/true") (some "python3") (some "app.py")).1
      "/bin/true" rfl (by decide),
   by
     rw [(c8_resolve_user_command none (some "python3") (some "app.py")).2.1 (Or.inl rfl)]
     rfl,
   by
     rw [(c8_resolve_user_command (some "") (some "python3") none).2.1 (Or.inr rfl)]
     rfl,
   (c8_resolve_user_command (some "") none (some "")).2.2⟩

/-- C9: fetch_pcrs returns nothing exactly when the pcr_request fails; a
response yields the pcr_values field of its payload, and an absent
pcr_values field yields JSON null rather than nothing. -/
theorem c9_fetch_pcrs :
    ∀ outcome : Except IOError Message,
      (fetch_pcrs outcome = none ↔ ∃ e, outcome = .error e)
      ∧ (∀ resp, outcome = .ok resp →
          fetch_pcrs outcome = some ((resp.payload.get "pcr_values").getD .null))
      ∧ (∀ resp, outcome = .ok resp → resp.payload.get "pcr_values" = none →
          fetch_pcrs outcome = some .null) := by
  intro outcome
  refine ⟨?_, ?_, ?_⟩
  · cases outcome with
    | ok resp => simp [fetch_pcrs]
    | error e => simp [fetch_pcrs]
  · rintro resp rfl
    rfl
  · rintro resp rfl hnone
    simp [fetch_pcrs, hnone]

/-- C9 witness: a response without pcr_values yields JSON null; a timed-out
request yields nothing. -/
theorem c9_fetch_pcrs_witness :
    fetch_pcrs (.ok ⟨"pcr_response", "req-2", .obj [("other", .bool true)]⟩) = some .null
    ∧ fetch_pcrs (.error ⟨.timedOut, "Request req-2 timed out"⟩) = none :=
  ⟨(c9_fetch_pcrs _).2.2 ⟨"pcr_response", "req-2", .obj [("other", .bool true)]⟩ rfl rfl,
   ((c9_fetch_pcrs _).1).mpr ⟨⟨.timedOut, "Request req-2 timed out"⟩, rfl⟩⟩

theorem mapInsert_not_mem {acc : List (String × Value)} {k : String}
    (h : ∀ p ∈ acc, p.1 ≠ k) (v : Value) :
    mapInsert acc k v = acc ++ [(k, v)] := by
  rw [mapInsert, if_neg]
  simp only [List.any_eq_true, beq_iff_eq, not_exists]
  intro p hp
  exact h p hp.1 hp.2

theorem mapInsert_mem {acc : List (String × Value)} {k : String} {v p} :
    p ∈ mapInsert acc k v → p ∈ acc ∨ p = (k, v) := by
  rw [mapInsert]
  split
  · intro hp
    rcases List.mem_map.mp hp with ⟨q, hq, hfq⟩
    by_cases hqk : (q.1 == k) = true
    · rw [if_pos hqk] at hfq
      exact Or.inr hfq.symm
    · rw [if_neg hqk] at hfq
      exact Or.inl (hfq ▸ hq)
  · intro hp
    rcases List.mem_append.mp hp with h | h
    · exact Or.inl h
    · exact Or.inr (List.mem_singleton.mp h)

theorem collectStep_allowed_some {acc : List (String × Value)} {n : String}
    {s : String} (han : allowedReqHeader n = true) :
    collectStep acc (n, some s) = mapInsert acc n (.str s) := by
  simp [collectStep, han]

theorem collectStep_id {acc : List (String × Value)} {n : String} {ov : Option String}
    (h : allowedReqHeader n = false ∨ ov = none) :
    collectStep acc (n, ov) = acc := by
  rcases h with h | rfl
  · simp [collectStep, h]
  · by_cases han : allowedReqHeader n = true <;> simp [collectStep, han]

theorem collectStep_mem {acc : List (String × Value)} {n : String}
    {ov : Option String} {p} :
    p ∈ collectStep acc (n, ov) → p ∈ acc ∨ ∃ s, ov = some s ∧ p = (n, Value.str s) := by
  cases ov with
  | some s =>
    by_cases han : allowedReqHeader n = true
    · rw [collectStep_allowed_some han]
      intro hp
      rcases mapInsert_mem hp with hq | hq
      · exact Or.inl hq
      · exact Or.inr ⟨s, rfl, hq⟩
    · rw [collectStep_id (Or.inl (by simpa using han))]
      exact fun hp => Or.inl hp
  | none =>
    rw [collectStep_id (Or.inr rfl)]
    exact fun hp => Or.inl hp

/-- The header-collection loop, generalized over the accumulator: when the
incoming names are distinct and disjoint from the accumulated ones, a
string-valued entry appears in the result exactly when it was accumulated
already or is an allowed text-valued input header. -/
theorem collect_go (hs : List (String × Option String)) :
    ∀ acc : List (String × Value),
      (hs.map Prod.fst).Nodup →
      (∀ p ∈ acc, p.1 ∉ hs.map Prod.fst) →
      ∀ k v, ((k, Value.str v) ∈ hs.foldl collectStep acc
        ↔ ((k, Value.str v) ∈ acc ∨ ((k, some v) ∈ hs ∧ allowedReqHeader k = true))) := by
  induction hs with
  | nil =>
    intro acc _ _ k v
    simp
  | cons h0 t ih =>
    obtain ⟨n, ov⟩ := h0
    intro acc hnodup hdisj k v
    rw [List.foldl_cons]
    have hnodup2 : (t.map Prod.fst).Nodup := by
      simpa using hnodup.of_cons
    have hn_not : n ∉ t.map Prod.fst := by
      have hh := hnodup
      simp only [List.map_cons, List.nodup_cons] at hh
      exact hh.1
    have hacc_ne : ∀ p ∈ acc, p.1 ≠ n := by
      intro p hp
      have hh := hdisj p hp
      simp only [List.map_cons, List.mem_cons] at hh
      exact fun he => hh (Or.inl he)
    have hdisj2 : ∀ p ∈ collectStep acc (n, ov), p.1 ∉ t.map Prod.fst := by
      intro p hp
      rcases collectStep_mem hp with hq | ⟨s, _, rfl⟩
      · intro hm
        exact (hdisj p hq) (by
          simp only [List.map_cons, List.mem_cons]
          exact Or.inr hm)
      · exact hn_not
    rw [ih (collectStep acc (n, ov)) hnodup2 hdisj2 k v]
    by_cases han : allowedReqHeader n = true
    · match ov with
      | some s =>
        rw [collectStep_allowed_some han, mapInsert_not_mem hacc_ne]
        constructor
        · rintro (hin | ⟨hmem, hal⟩)
          · rcases List.mem_append.mp hin with hmem | hone
            · exact Or.inl hmem
            · have hh := List.mem_singleton.mp hone
              rw [Prod.mk.injEq] at hh
              obtain ⟨rfl, hv⟩ := hh
              obtain rfl : v = s := by injection hv
              exact Or.inr ⟨List.mem_cons_self _ _, han⟩
          · exact Or.inr ⟨List.mem_cons_of_mem _ hmem, hal⟩
        · rintro (hmem | ⟨hmem, hal⟩)
          · exact Or.inl (List.mem_append.mpr (Or.inl hmem))
          · rcases List.mem_cons.mp hmem with heq | hmem2
            · rw [Prod.mk.injEq] at heq
              obtain ⟨rfl, hv⟩ := heq
              obtain rfl : v = s := by injection hv
              exact Or.inl (List.mem_append.mpr (Or.inr (List.mem_singleton.mpr rfl)))
            · exact Or.inr ⟨hmem2, hal⟩
      | none =>
        rw [collectStep_id (Or.inr rfl)]
        constructor
        · rintro (hmem | ⟨hmem, hal⟩)
          · exact Or.inl hmem
          · exact Or.inr ⟨List.mem_cons_of_mem _ hmem, hal⟩
        · rintro (hmem | ⟨hmem, hal⟩)
          · exact Or.inl hmem
          · rcases List.mem_cons.mp hmem with heq | hmem2
            · rw [Prod.mk.injEq] at heq
              exact absurd heq.2 (by simp)
            · exact Or.inr ⟨hmem2, hal⟩
    · rw [collectStep_id (Or.inl (by simpa using han))]
      constructor
      · rintro (hmem | ⟨hmem, hal⟩)
        · exact Or.inl hmem
        · exact Or.inr ⟨List.mem_cons_of_mem _ hmem, hal⟩
      · rintro (hmem | ⟨hmem, hal⟩)
        · exact Or.inl hmem
        · rcases List.mem_cons.mp hmem with heq | hmem2
          · rw [Prod.mk.injEq] at heq
            obtain ⟨rfl, _⟩ := heq
            exact absurd hal han
          · exact Or.inr ⟨hmem2, hal⟩

/-- Every value stored by the header-collection loop is a JSON string. -/
theorem collect_vals_str (hs : List (String × Option String)) :
    ∀ acc : List (String × Value),
      (∀ p ∈ acc, ∃ s, p.2 = Value.str s) →
      ∀ p ∈ hs.foldl collectStep acc, ∃ s, p.2 = Value.str s := by
  induction hs with
  | nil =>
    intro acc hacc p hp
    exact hacc p hp
  | cons h0 t ih =>
    obtain ⟨n, ov⟩ := h0
    intro acc hacc p hp
    rw [List.foldl_cons] at hp
    refine ih (collectStep acc (n, ov)) ?_ p hp
    intro q hq
    rcases collectStep_mem hq with hq2 | ⟨s, _, rfl⟩
    · exact hacc q hq2
    · exact ⟨s, rfl⟩

/-- Membership in the filtered response headers. -/
theorem respHeaders_mem_iff (fields : List (String × Value)) (k s : String) :
    (k, s) ∈ respHeaders fields
      ↔ ((k, Value.str s) ∈ fields ∧ strLower k ≠ "transfer-encoding"
           ∧ strLower k ≠ "content-length") := by
  simp only [respHeaders, List.mem_filterMap]
  constructor
  · rintro ⟨⟨k1, v1⟩, hmem, hf⟩
    simp only at hf
    by_cases hc : (strLower k1 != "transfer-encoding" && strLower k1 != "content-length") = true
    · rw [if_pos hc] at hf
      simp only [Bool.and_eq_true, bne_iff_ne, ne_eq] at hc
      cases v1 with
      | str s1 =>
        simp only [Option.some.injEq, Prod.mk.injEq] at hf
        obtain ⟨rfl, rfl⟩ := hf
        exact ⟨hmem, hc.1, hc.2⟩
      | null => exact absurd hf (by simp)
      | bool b => exact absurd hf (by simp)
      | num n => exact absurd hf (by simp)
      | arr xs => exact absurd hf (by simp)
      | obj ps => exact absurd hf (by simp)
    · rw [if_neg hc] at hf
      exact absurd hf (by simp)
  · rintro ⟨hmem, h1, h2⟩
    refine ⟨(k, Value.str s), hmem, ?_⟩
    have hc : (strLower k != "transfer-encoding" && strLower k != "content-length") = true := by
      simp [bne_iff_ne, h1, h2]
    simp [hc]

/-- C6: the emitted http_request headers object holds exactly the request
headers whose lowercased name is not host, proxy-connection or
proxy-authorization and whose value is valid text (stated for requests
without repeated header names; every stored value is a string); and the
local response copies exactly the string-valued reply headers other than
transfer-encoding and content-length, appends a content-length computed
from the emitted body bytes, and takes its status from payload.status with
502 when it is missing. -/
theorem c6_http_proxy_headers_and_status :
    (∀ hs : List (String × Option String), (hs.map Prod.fst).Nodup →
        ∀ k v, ((k, Value.str v) ∈ collectHeaders hs
          ↔ ((k, some v) ∈ hs ∧ allowedReqHeader k = true)))
    ∧ (∀ (hs : List (String × Option String)) p, p ∈ collectHeaders hs →
        ∃ s, p.2 = Value.str s)
    ∧ (∀ (method url body : String) (hs : List (String × Option String)),
        (httpPayload method url hs body).get "headers"
          = some (.obj (collectHeaders hs)))
    ∧ (∀ (fields : List (String × Value)) (k s : String),
        (k, s) ∈ respHeaders fields
          ↔ ((k, Value.str s) ∈ fields ∧ strLower k ≠ "transfer-encoding"
               ∧ strLower k ≠ "content-length"))
    ∧ (∀ payload : Value, (httpLocalResponse payload).headers
        = respHeaders (((payload.get "headers").bind Value.asObj).getD [])
          ++ [("content-length",
               ⟨natChars ((httpLocalResponse payload).body.utf8ByteSize)⟩)])
    ∧ (∀ payload : Value, payload.get "status" = none →
        (httpLocalResponse payload).status = 502)
    ∧ (∀ (payload : Value) (z : Int), payload.get "status" = some (.num z) →
        0 ≤ z → z < 65536 → (httpLocalResponse payload).status = z.toNat) := by
  refine ⟨?_, ?_, ?_, respHeaders_mem_iff, ?_, ?_, ?_⟩
  · intro hs hnodup k v
    have := collect_go hs [] hnodup (by simp) k v
    simpa [collectHeaders] using this
  · intro hs p hp
    exact collect_vals_str hs [] (by simp) p hp
  · intro method url body hs
    rfl
  · intro payload
    rfl
  · intro payload h
    simp [httpLocalResponse, h]
  · intro payload z h hz0 hz
    have hlt : z.toNat < 65536 := by omega
    simp [httpLocalResponse, h, Value.asU64, hz0,
      show z < 18446744073709551616 from by omega, Nat.mod_eq_of_lt hlt]

/-- C6 witness: the spec scenario — X-Foo is kept, Host dropped, a
non-text value skipped; reply headers keep Content-Type, drop the inner
Content-Length; a present numeric status is used and an absent one becomes
502. -/
theorem c6_http_proxy_headers_and_status_witness :
    (("X-Foo", Value.str "bar") ∈ collectHeaders
        [("X-Foo", some "bar"), ("Host", some "y"), ("X-Bin", none)]
      ↔ (("X-Foo", some "bar")
            ∈ [("X-Foo", some "bar"), ("Host", some "y"), ("X-Bin", none)]
          ∧ allowedReqHeader "X-Foo" = true))
    ∧ (("Content-Type", "text/plain") ∈ respHeaders
          [("Content-Type", .str "text/plain"), ("Content-Length", .str "99999")]
        ↔ (("Content-Type", Value.str "text/plain")
              ∈ [("Content-Type", .str "text/plain"), ("Content-Length", .str "99999")]
            ∧ strLower "Content-Type" ≠ "transfer-encoding"
            ∧ strLower "Content-Type" ≠ "content-length"))
    ∧ (httpLocalResponse (.obj [("headers", .obj [])])).status = 502
    ∧ (httpLocalResponse (.obj [("status", .num 200), ("body", .str "hello")])).status
        = (200 : Int).toNat :=
  ⟨c6_http_proxy_headers_and_status.1
      [("X-Foo", some "bar"), ("Host", some "y"), ("X-Bin", none)] (by decide)
      "X-Foo" "bar",
   (c6_http_proxy_headers_and_status.2.2.2.1
      [("Content-Type", .str "text/plain"), ("Content-Length", .str "99999")]
      "Content-Type" "text/plain"),
   c6_http_proxy_headers_and_status.2.2.2.2.2.1 (.obj [("headers", .obj [])]) rfl,
   c6_http_proxy_headers_and_status.2.2.2.2.2.2
      (.obj [("status", .num 200), ("body", .str "hello")]) 200 rfl (by omega) (by omega)⟩

/-- C10: every header the gateway copies into the local HTTP response comes
from a string-valued reply header — an entry whose JSON value is a number,
array, object, boolean or null contributes nothing — as the concrete
instance shows. -/
theorem c10_nonstring_reply_headers_omitted :
    (∀ (fields : List (String × Value)) (k s : String),
        (k, s) ∈ respHeaders fields → (k, Value.str s) ∈ fields)
    ∧ respHeaders [("x-count", .num 5), ("etag", .str "abc"), ("flags", .arr [])]
        = [("etag", "abc")] := by
  constructor
  · intro fields k s hmem
    exact ((respHeaders_mem_iff fields k s).mp hmem).1
  · rfl

/-- C10 witness: the kept entry of the concrete instance traces back to the
string-valued input header. -/
theorem c10_nonstring_reply_headers_omitted_witness :
    ("etag", Value.str "abc")
      ∈ [("x-count", Value.num 5), ("etag", Value.str "abc"), ("flags", Value.arr [])] :=
  c10_nonstring_reply_headers_omitted.1
    [("x-count", .num 5), ("etag", .str "abc"), ("flags", .arr [])] "etag" "abc"
    (by rw [c10_nonstring_reply_headers_omitted.2]; exact List.mem_singleton.mpr rfl)

end Treza

